import Mathlib

/-!
# Shuffleboard rules core: a shallow embedding

This file embeds the rules core of the browser shuffleboard game
(scoring zones, shot resolution, rest detection, turn scheduling,
score ledger and win/tie checks) as executable Lean definitions and
proves the specification's testable properties against them.

The repository holds two draft implementations: a standalone script
(`part_000`, module-level state) and a modular one (`js/game.js`,
`js/player.js`, `js/disc.js`, `js/board.js`).  Both are embedded where
a claim cites them.

Positions, velocities and power values are modelled as exact rationals
(the JavaScript source computes with IEEE doubles; all decision logic
compares plain sums, products and literals, which the rational model
reflects exactly).  Randomness (shot perturbation) is modelled by
explicit bounded parameters.
-/

namespace Shuffleboard

/-! ## part_000: constants and scoring zones -/

/-- `BOARD_LENGTH` from the standalone draft. -/
def BOARD_LENGTH : ℚ := 20

/-- `SHOT_POWER` from the standalone draft. -/
def SHOT_POWER : ℚ := 15

/-- One entry of the `SCORING_ZONES` table: a range along the board's
long axis and a point value. -/
structure Zone where
  zmin : ℚ
  zmax : ℚ
  points : ℤ
deriving DecidableEq, Repr

/-- The `SCORING_ZONES` table of the standalone draft, in source order
(farthest zone first). -/
def SCORING_ZONES : List Zone :=
  [⟨18, 20, 10⟩, ⟨15, 18, 8⟩, ⟨10, 15, 7⟩, ⟨0, 10, -10⟩]

/-- The loop body of `getPointsForPosition`: scan the zone table and
return the point value of the first zone with `zmin ≤ z && z ≤ zmax`
(the source tests `z >= zone.min && z <= zone.max`); `0` if no zone
matches. -/
def findZonePoints : List Zone → ℚ → ℤ
  | [], _ => 0
  | zone :: rest, z =>
      if zone.zmin ≤ z ∧ z ≤ zone.zmax then zone.points else findZonePoints rest z

/-- `getPointsForPosition(z)` from the standalone draft. -/
def getPointsForPosition (z : ℚ) : ℤ :=
  findZonePoints SCORING_ZONES z

/-! ## part_000: `shootDisc` shot resolution

`shootDisc` rotates the forward axis `(0,0,1)` by the aim angle about
the vertical axis, giving a unit direction `(dx, dz)` in the horizontal
plane, scales it by `power * SHOT_POWER`, and then adds an independent
perturbation `(Math.random() - 0.5) * 0.5 ∈ [-1/4, 1/4]` to each of the
two horizontal velocity components.  The direction is modelled by its
components constrained to the unit circle, and the two random draws by
explicit parameters bounded by `1/4`.

One wrinkle in the code as written: the scale factor is read as
`const power = this.power * SHOT_POWER`.  `shootDisc()` is invoked as a
plain call from `onKeyUp`, so in the classic-script sloppy mode of
part_000 `this` is the global object — and the module-level
`let power` maintained by the charge meter creates **no** global
property, so `this.power` evaluates to `undefined` and the whole
product is NaN, which then propagates into both velocity components of
every shot.  Both readings are embedded below: the code as written
(NaN semantics over `Option ℚ`, `none` = NaN) and, clearly separated,
the spec's intended resolver. -/

/-- JavaScript multiplication restricted to what `shootDisc` needs:
`none` stands for NaN (or `undefined` entering arithmetic), and any
NaN operand makes the result NaN. -/
def jsMul : Option ℚ → Option ℚ → Option ℚ
  | some a, some b => some (a * b)
  | _, _ => none

/-- JavaScript addition with the same NaN propagation. -/
def jsAdd : Option ℚ → Option ℚ → Option ℚ
  | some a, some b => some (a + b)
  | _, _ => none

/-- The value of `this.power` inside part_000's `shootDisc`: the plain
call binds `this` to the global object, and the top-level `let power`
is not a global property, so the read yields `undefined` — NaN once it
enters arithmetic. -/
def thisPower : Option ℚ := none

/-- The horizontal velocity assigned by `shootDisc` **as written**:
`power = this.power * SHOT_POWER`, `velocity.x = dx * power`
(`+ rx` perturbation), `velocity.z = dz * power` (`+ rz`).  The charge
meter's value never enters: `this.power` is `undefined`. -/
def shootDiscVelocityJS (dx dz rx rz : ℚ) : Option ℚ × Option ℚ :=
  let power := jsMul thisPower (some SHOT_POWER)
  (jsAdd (jsMul (some dx) power) (some rx),
   jsAdd (jsMul (some dz) power) (some rz))

/-- Modelled from the spec: the Shot Resolver's intended velocity —
"`speed = power * shotPowerConstant`, direction = rotate the board's
forward axis by the aim angle", plus the bounded symmetric
perturbation — with the charge fraction `p` taken from the meter.
Equivalently, `shootDisc` with its `this.power` slip repaired to the
global `power`.  Kept for comparison with `shootDiscVelocityJS`, the
code as written. -/
def shootDiscVelocitySpec (dx dz p rx rz : ℚ) : ℚ × ℚ :=
  (dx * (p * SHOT_POWER) + rx, dz * (p * SHOT_POWER) + rz)

/-! ## part_000: game state, rest detection, score ledger -/

/-- The `gameState` string of the standalone draft
(`'aiming' | 'charging' | 'shooting' | 'scoring' | 'gameOver'`). -/
inductive GState where
  | aiming
  | charging
  | shooting
  | scoring
  | gameOver
deriving DecidableEq, Repr

/-- The rest check of `animate` (standalone draft, `'shooting'` branch):
given the current `gameState` and the active disc's linear and angular
speeds (vector norms supplied by the physics engine), compute
`isMoving = velocity.length() > 0.1 || angularVelocity.length() > 0.1`;
if not moving, set `gameState = 'aiming'` and clear the active disc.
Returns the new state and whether the active disc was cleared.  This is
one simulation tick — the source keeps no debounce counter. -/
def animateRestTick (g : GState) (vlen wlen : ℚ) : GState × Bool :=
  if g = GState.shooting then
    if vlen > 1/10 ∨ wlen > 1/10 then (g, false)
    else (GState.aiming, true)
  else (g, false)

/-- Modelled from the spec: the spec's rest predicate in its own words —
"declares at rest when both linear and angular speed fall **below** a
fixed epsilon (e.g., 0.1 units)" — stated with strict inequalities, for
comparison with the code's behaviour. -/
def specRestBelow (vlen wlen : ℚ) : Prop :=
  vlen < 1/10 ∧ wlen < 1/10

/-- The per-disc record of the standalone draft
(`{ player, scored, points }` plus the physics body's longitudinal
position `z`, the only coordinate scoring reads). -/
structure PDisc where
  player : ℕ
  z : ℚ
  scored : Bool
  points : ℤ
deriving DecidableEq, Repr

/-- The module-level match state of the standalone draft that
`calculateScores` reads and writes. -/
structure MatchState where
  player1Score : ℤ
  player2Score : ℤ
  currentRound : ℕ
  gameState : GState
  currentPlayer : ℕ
  discsShot : ℕ
deriving DecidableEq, Repr

/-- One `forEach` accumulation of `calculateScores`: the round score of
player `pl` is the sum of `getPointsForPosition` over that player's
not-yet-scored discs. -/
def roundScoreFor (pl : ℕ) (discs : List PDisc) : ℤ :=
  ((discs.filter (fun d => d.player == pl && !d.scored)).map
    (fun d => getPointsForPosition d.z)).sum

/-- The mutation of the two `forEach` loops of `calculateScores`: every
not-yet-scored disc of player 1 or 2 gets `points` assigned from its
position and is marked `scored`. -/
def markScored (discs : List PDisc) : List PDisc :=
  discs.map (fun d =>
    if (d.player == 1 || d.player == 2) && !d.scored then
      { d with points := getPointsForPosition d.z, scored := true }
    else d)

/-- The tail of `calculateScores` (standalone draft, after the totals
are updated): if either total reached `75`, either declare the winner
and set `gameState = 'gameOver'`, or — on an exact tie — fall through
to a sudden-death round (round counter incremented in the tie branch
and again in the shared reset, scores kept); otherwise reset for the
next round.  Returns the new state and the declared winner, if any. -/
def winCheckUpdate (s : MatchState) : MatchState × Option ℕ :=
  if 75 ≤ s.player1Score ∨ 75 ≤ s.player2Score then
    if s.player1Score = s.player2Score then
      ({ s with currentRound := s.currentRound + 2, gameState := GState.aiming,
                currentPlayer := 1, discsShot := 0 }, none)
    else
      ({ s with gameState := GState.gameOver },
        some (if s.player2Score < s.player1Score then 1 else 2))
  else
    ({ s with currentRound := s.currentRound + 1, gameState := GState.aiming,
              currentPlayer := 1, discsShot := 0 }, none)

/-- `calculateScores` of the standalone draft: sum each player's
not-yet-scored discs into a round score, mark those discs scored with
their assigned points, add the round scores to the running totals, then
run the win/tie check. -/
def calculateScores (discs : List PDisc) (s : MatchState) :
    List PDisc × MatchState × Option ℕ :=
  let r1 := roundScoreFor 1 discs
  let r2 := roundScoreFor 2 discs
  let s1 := { s with player1Score := s.player1Score + r1,
                     player2Score := s.player2Score + r2 }
  (markScored discs, (winCheckUpdate s1).1, (winCheckUpdate s1).2)

/-- The sum of the point values assigned this round to player `pl`'s
newly scored discs, read off the output of `calculateScores` (the
output disc list zipped with the input to identify the discs that were
unscored on entry). -/
def assignedRoundSum (pl : ℕ) (discs : List PDisc) : ℤ :=
  ((((markScored discs).zip discs).filter
      (fun q => q.2.player == pl && !q.2.scored)).map
    (fun q => q.1.points)).sum

/-- Iterated rounds: fold `calculateScores` over a list of per-round
final disc configurations. -/
def runRounds (s : MatchState) (rounds : List (List PDisc)) : MatchState :=
  rounds.foldl (fun st ds => (calculateScores ds st).2.1) s

/-! ## game.js: `checkGameOver` (win threshold `winningScore = 75`) -/

/-- `checkGameOver` of `js/game.js`: `player1Wins = scores[0] >= 75`,
`player2Wins = scores[1] >= 75`; if either holds, end the game with
winner `player1Wins ? 1 : 2`; else if all discs are played, end the
game with the higher-scoring player (`0` encodes a tie); else the game
continues.  Returns (game over declared, `endGame` argument). -/
def checkGameOver (s0 s1 : ℤ) (allDiscsPlayed : Bool) : Bool × Option ℕ :=
  if 75 ≤ s0 ∨ 75 ≤ s1 then
    (true, some (if 75 ≤ s0 then 1 else 2))
  else if allDiscsPlayed then
    (true, some (if s1 < s0 then 1 else if s0 < s1 then 2 else 0))
  else
    (false, none)

/-! ## js/disc.js, js/board.js, js/player.js -/

/-- A 3-vector of exact rationals. -/
structure Vec3 where
  x : ℚ
  y : ℚ
  z : ℚ
deriving DecidableEq, Repr

/-- The zero vector. -/
def Vec3.zero : Vec3 := ⟨0, 0, 0⟩

/-- `lengthSquared` as used by `disc.js`. -/
def Vec3.lengthSquared (v : Vec3) : ℚ := v.x ^ 2 + v.y ^ 2 + v.z ^ 2

/-- The rules-relevant state of a `Disc` (`js/disc.js`): physics body
position and velocities, the two lifecycle flags, and the disc's
thickness (the constructor and `setPosition` place the body at
`y + thickness / 2`). -/
structure Disc where
  position : Vec3
  velocity : Vec3
  angularVelocity : Vec3
  isActive : Bool
  hasBeenScored : Bool
  thickness : ℚ
deriving DecidableEq, Repr

/-- `Disc.setPosition(x, y, z)`: place the body at
`(x, y + thickness/2, z)` and zero both velocities. -/
def Disc.setPosition (d : Disc) (x y z : ℚ) : Disc :=
  { d with position := ⟨x, y + d.thickness / 2, z⟩,
           velocity := Vec3.zero, angularVelocity := Vec3.zero }

/-- `Disc.reset()`: `setPosition(0, 0, 0)` and clear both flags. -/
def Disc.reset (d : Disc) : Disc :=
  { d.setPosition 0 0 0 with isActive := false, hasBeenScored := false }

/-- `Disc.isMoving()`: `velocity.lengthSquared() > 0.01 ||
angularVelocity.lengthSquared() > 0.01`. -/
def Disc.isMoving (d : Disc) : Bool :=
  decide (d.velocity.lengthSquared > 1/100) ||
    decide (d.angularVelocity.lengthSquared > 1/100)

/-- The `Board` of `js/board.js` (`length = 30` in its constructor). -/
structure Board where
  blength : ℚ
deriving DecidableEq, Repr

/-- The board instance built by the `Board` constructor. -/
def defaultBoard : Board := ⟨30⟩

/-- `Board.calculateScore(z)`: normalize `z` to `[0,1]` along the board
and return the zone value by threshold comparison. -/
def Board.calculateScore (b : Board) (z : ℚ) : ℤ :=
  let normalizedZ := (z + b.blength / 2) / b.blength
  if normalizedZ < 1/10 then -10
  else if normalizedZ < 7/20 then 7
  else if normalizedZ < 13/20 then 8
  else if normalizedZ < 9/10 then 10
  else 0

/-- The rules-relevant state of a `Player` (`js/player.js`): running
score, count of discs thrown this round, the per-round disc count
(`maxDiscs = 4` in the constructor) and the owned discs. -/
structure Player where
  score : ℤ
  discsThrown : ℕ
  maxDiscs : ℕ
  discs : List Disc
deriving DecidableEq, Repr

/-- The disc built by the `Disc` constructor with default
`x = y = z = 0` (thickness `0.1`): body at `(0, thickness/2, 0)`, both
flags clear. -/
def newDisc : Disc :=
  { position := ⟨0, (1/10) / 2, 0⟩, velocity := Vec3.zero,
    angularVelocity := Vec3.zero, isActive := false,
    hasBeenScored := false, thickness := 1/10 }

/-- The player built by the `Player` constructor (`createDiscs` makes
`maxDiscs = 4` discs). -/
def Player.create : Player :=
  { score := 0, discsThrown := 0, maxDiscs := 4,
    discs := List.replicate 4 newDisc }

/-- `Player.hasDiscsLeft()`: `discsThrown < maxDiscs`. -/
def Player.hasDiscsLeft (p : Player) : Bool :=
  decide (p.discsThrown < p.maxDiscs)

/-- `Player.reset()`: zero the score and the thrown count and reset
every disc. -/
def Player.reset (p : Player) : Player :=
  { p with score := 0, discsThrown := 0, discs := p.discs.map Disc.reset }

/-- `Player.throwDisc(power, angle)`: refuse (`return false`) when
`discsThrown >= maxDiscs` or the indexed disc is missing; otherwise
position the next disc at the start `(0, 0.1, -14)` (zeroing its
velocities), hand the force `(sin(angle)*power*0.1, 0,
-cos(angle)*power*0.1)` to the external physics engine, and increment
`discsThrown`.  The force itself does not change the rules state. -/
def Player.throwDisc (p : Player) : Bool × Player :=
  if p.maxDiscs ≤ p.discsThrown then (false, p)
  else
    match p.discs[p.discsThrown]? with
    | none => (false, p)
    | some d =>
        (true,
          { p with
              discs := p.discs.set p.discsThrown (d.setPosition 0 (1/10) (-14)),
              discsThrown := p.discsThrown + 1 })

/-- The `forEach` of `Player.calculateScore(board)`: every disc with
`hasBeenScored` false contributes `board.calculateScore(z)` to the
round score and is marked scored; already-scored discs are skipped. -/
def Player.calculateScoreGo (b : Board) : List Disc → List Disc × ℤ
  | [] => ([], 0)
  | d :: rest =>
      if d.hasBeenScored then
        (d :: (Player.calculateScoreGo b rest).1,
         (Player.calculateScoreGo b rest).2)
      else
        ({ d with hasBeenScored := true } :: (Player.calculateScoreGo b rest).1,
         b.calculateScore d.position.z + (Player.calculateScoreGo b rest).2)

/-- `Player.calculateScore(board)`: run the disc pass, add the round
score to the running total, and return the round score. -/
def Player.calculateScore (p : Player) (b : Board) : Player × ℤ :=
  ({ p with discs := (Player.calculateScoreGo b p.discs).1,
            score := p.score + (Player.calculateScoreGo b p.discs).2 },
   (Player.calculateScoreGo b p.discs).2)

/-- The public operations of the `Player` type that touch its rules
state. -/
inductive PlayerOp where
  | throw : PlayerOp
  | reset : PlayerOp
  | calcScore : Board → PlayerOp

/-- Apply one player operation. -/
def PlayerOp.apply (p : Player) : PlayerOp → Player
  | .throw => p.throwDisc.2
  | .reset => p.reset
  | .calcScore b => (p.calculateScore b).1

/-- Apply a sequence of player operations. -/
def applyOps (p : Player) (ops : List PlayerOp) : Player :=
  ops.foldl PlayerOp.apply p

/-! ## game.js: the turn scheduler (`endTurn`, lines 796-821)

A turn: the current player throws one disc (guarded by
`throwDisc`'s `discsThrown >= maxDiscs` refusal), then `endTurn`
switches `currentPlayerIndex` to the other player and, if that player
has no remaining discs (`getRemainingDiscs() === 0`), ends the round
instead of starting the next turn.  `aiTakeTurn` can also reach
`endTurn` without a throw when the current player has no disc left. -/

/-- Scheduler state: whose turn it is (`false` = player index 0), how
many discs each player has thrown this round, and whether the round has
been ended. -/
structure SchedState where
  cur : Bool
  thrown0 : ℕ
  thrown1 : ℕ
  roundOver : Bool
deriving DecidableEq, Repr

/-- The shared per-round disc count (`maxDiscs = 4`). -/
def schedMaxDiscs : ℕ := 4

/-- Discs thrown so far by player `i`. -/
def SchedState.thrownOf (s : SchedState) (i : Bool) : ℕ :=
  if i then s.thrown1 else s.thrown0

/-- `getRemainingDiscs()` of player `i`. -/
def SchedState.remainingOf (s : SchedState) (i : Bool) : ℕ :=
  schedMaxDiscs - s.thrownOf i

/-- The current player throws one disc. -/
def SchedState.throwCur (s : SchedState) : SchedState :=
  if s.cur then { s with thrown1 := s.thrown1 + 1 }
  else { s with thrown0 := s.thrown0 + 1 }

/-- `endTurn()`: switch to the next player; if the next player has zero
remaining discs, end the round (`endRound`), else start that player's
turn. -/
def endTurn (s : SchedState) : SchedState :=
  let next := !s.cur
  if s.remainingOf next = 0 then { s with cur := next, roundOver := true }
  else { s with cur := next }

/-- One scheduler transition: while the round is open, either the
current player throws a disc (possible only while the `throwDisc`
guard admits it) and `endTurn` runs, or — the `aiTakeTurn` path — the
current player has no disc left and `endTurn` runs without a throw. -/
inductive SchedStep : SchedState → SchedState → Prop where
  | throw (s : SchedState) (hro : s.roundOver = false)
      (hcan : s.thrownOf s.cur < schedMaxDiscs) :
      SchedStep s (endTurn s.throwCur)
  | pass (s : SchedState) (hro : s.roundOver = false)
      (hcant : s.thrownOf s.cur = schedMaxDiscs) :
      SchedStep s (endTurn s)

/-- The round's initial state: player index 0 to act, nothing thrown. -/
def schedInit : SchedState := ⟨false, 0, 0, false⟩

/-- States reachable by the scheduler within one round. -/
inductive SchedReachable : SchedState → Prop where
  | init : SchedReachable schedInit
  | step {s s' : SchedState} :
      SchedReachable s → SchedStep s s' → SchedReachable s'

/-! ## Theorems -/

/-- The scan unfolds to a nested conditional over the four zones. -/
lemma getPointsForPosition_eq (z : ℚ) :
    getPointsForPosition z =
      if 18 ≤ z ∧ z ≤ 20 then 10
      else if 15 ≤ z ∧ z ≤ 18 then 8
      else if 10 ≤ z ∧ z ≤ 15 then 7
      else if 0 ≤ z ∧ z ≤ 10 then -10
      else 0 := by
  simp only [getPointsForPosition, SCORING_ZONES, findZonePoints]

/-- C1 (amended): for every `z` inside a zone's half-open range
`[zmin, zmax)`, `getPointsForPosition` returns that zone's point value,
and for `z` outside the closed span `[0, 20]` it returns the default
`0`; in particular `z = 19` scores `10`, `z = 9.9` scores `-10` and
`z = 20.5` scores `0`.  However the source compares with `z <= zone.max`
(closed upper bounds), so the boundary `z = 20` — outside every
half-open zone — scores `10` rather than the default. -/
theorem getPointsForPosition_zone_spec (z : ℚ) :
    (∀ zone ∈ SCORING_ZONES, zone.zmin ≤ z → z < zone.zmax →
        getPointsForPosition z = zone.points) ∧
    ((z < 0 ∨ 20 < z) → getPointsForPosition z = 0) ∧
    getPointsForPosition 20 = 10 ∧
    getPointsForPosition 19 = 10 ∧
    getPointsForPosition (99/10) = -10 ∧
    getPointsForPosition (41/2) = 0 := by
  refine ⟨?_, ?_, by decide, by decide, ?_, ?_⟩
  · intro zone hmem h1 h2
    simp only [SCORING_ZONES, List.mem_cons, List.not_mem_nil, or_false] at hmem
    rcases hmem with rfl | rfl | rfl | rfl <;>
      · simp only at h1 h2
        rw [getPointsForPosition_eq]
        split_ifs with hA hB hC hD <;>
          first
            | rfl
            | (exfalso;
               first
                 | exact absurd ⟨by linarith, by linarith⟩ hA
                 | exact absurd ⟨by linarith, by linarith⟩ hB
                 | exact absurd ⟨by linarith, by linarith⟩ hC
                 | exact absurd ⟨by linarith, by linarith⟩ hD
                 | (rcases hA with ⟨hA1, hA2⟩; linarith))
  · intro h
    rw [getPointsForPosition_eq]
    rcases h with h | h <;>
      · split_ifs with hA hB hC hD <;>
        first
          | rfl
          | (exfalso; cases hA; linarith)
          | (exfalso; cases hB; linarith)
          | (exfalso; cases hC; linarith)
          | (exfalso; cases hD; linarith)
  · rw [getPointsForPosition_eq]
    norm_num
  · rw [getPointsForPosition_eq]
    norm_num

/-- C1 counterexample: `z = 20` lies in no half-open zone `[zmin, zmax)`
of `SCORING_ZONES`, yet `getPointsForPosition 20` is not the default
`0` (it returns `10`, because the source uses closed upper bounds). -/
theorem getPointsForPosition_twenty_not_default :
    (∀ zone ∈ SCORING_ZONES, ¬(zone.zmin ≤ (20:ℚ) ∧ (20:ℚ) < zone.zmax)) ∧
    getPointsForPosition 20 ≠ 0 := by decide

/-- C1 witness: the half-open-zone clause applied at `z = 12` in the
zone `[10, 15) ↦ 7`. -/
theorem getPointsForPosition_zone_spec_witness :
    getPointsForPosition 12 = 7 :=
  (getPointsForPosition_zone_spec 12).1 ⟨10, 15, 7⟩ (by decide) (by decide)
    (by decide)

/-- C5 (amended): the code as written satisfies neither clause of the
claim: `shootDisc` reads `this.power`, which is `undefined` in its
plain call, so for every aim input — any direction, any meter power,
any perturbation draws — both velocity components are NaN; in
particular power `0` does not produce zero speed, and no speed bound
holds.  Under the spec's intended resolver (the charge meter's power
`p ∈ [0,1]` in place of `this.power`), the squared speed never exceeds
`(SHOT_POWER * (1 + 1/30))^2` (perturbation bound `1/30` of
`SHOT_POWER`, i.e. speed at most `15.5`); but even there power `0`
yields exactly the unconditional perturbation pair, which need not be
zero. -/
theorem shootDisc_speed_bound (dx dz p rx rz : ℚ)
    (hdir : dx ^ 2 + dz ^ 2 = 1) (hp0 : 0 ≤ p) (hp1 : p ≤ 1)
    (hrx : |rx| ≤ 1/4) (hrz : |rz| ≤ 1/4) :
    shootDiscVelocityJS dx dz rx rz = (none, none) ∧
    (shootDiscVelocitySpec dx dz p rx rz).1 ^ 2 +
        (shootDiscVelocitySpec dx dz p rx rz).2 ^ 2
      ≤ (SHOT_POWER * (1 + 1/30)) ^ 2 ∧
    (p = 0 → shootDiscVelocitySpec dx dz p rx rz = (rx, rz)) := by
  obtain ⟨hrx1, hrx2⟩ := abs_le.mp hrx
  obtain ⟨hrz1, hrz2⟩ := abs_le.mp hrz
  have hrx3 : rx ^ 2 ≤ 1/16 := by nlinarith
  have hrz3 : rz ^ 2 ≤ 1/16 := by nlinarith
  refine ⟨rfl, ?_, ?_⟩
  · have hident : (dx * rx + dz * rz) ^ 2 + (dx * rz - dz * rx) ^ 2
        = (dx ^ 2 + dz ^ 2) * (rx ^ 2 + rz ^ 2) := by ring
    have hcs : (dx * rx + dz * rz) ^ 2 ≤ (dx ^ 2 + dz ^ 2) * (rx ^ 2 + rz ^ 2) := by
      linarith [sq_nonneg (dx * rz - dz * rx)]
    rw [hdir, one_mul] at hcs
    have ht2 : (dx * rx + dz * rz) ^ 2 ≤ 1/8 := by linarith
    have ht : dx * rx + dz * rz ≤ 3/8 := by
      nlinarith [sq_nonneg (dx * rx + dz * rz - 3/8)]
    have hp2 : p ^ 2 ≤ 1 := by nlinarith
    have hcross : 30 * (p * (dx * rx + dz * rz)) ≤ 45/4 := by
      rcases le_total (dx * rx + dz * rz) 0 with htn | htp
      · have := mul_nonpos_of_nonneg_of_nonpos hp0 htn
        linarith
      · have : p * (dx * rx + dz * rz) ≤ dx * rx + dz * rz := by nlinarith
        linarith
    have hexp : (shootDiscVelocitySpec dx dz p rx rz).1 ^ 2 +
        (shootDiscVelocitySpec dx dz p rx rz).2 ^ 2
        = 225 * (p ^ 2 * (dx ^ 2 + dz ^ 2)) +
            30 * (p * (dx * rx + dz * rz)) + (rx ^ 2 + rz ^ 2) := by
      simp only [shootDiscVelocitySpec, SHOT_POWER]
      ring
    rw [hexp, hdir, mul_one]
    have hgoal : (SHOT_POWER * (1 + 1/30)) ^ 2 = 961/4 := by
      norm_num [SHOT_POWER]
    rw [hgoal]
    nlinarith
  · intro hp
    simp [shootDiscVelocitySpec, hp]

/-- C5 counterexample: at the valid aim input "straight ahead
(`(dx, dz) = (0, 1)`, a unit direction), power `0`, both perturbation
draws at their extreme `1/4`", the code as written produces NaN in
both velocity components — not the zero velocity the claim requires at
power `0`, and inside no speed bound; and even with the `this.power`
slip repaired, the velocity is `(1/4, 1/4) ≠ (0, 0)`. -/
theorem shootDisc_as_written_nan :
    shootDiscVelocityJS 0 1 (1/4) (1/4) = (none, none) ∧
    shootDiscVelocityJS 0 1 (1/4) (1/4) ≠ (some 0, some 0) ∧
    ((0:ℚ) ^ 2 + (1:ℚ) ^ 2 = 1) ∧
    shootDiscVelocitySpec 0 1 0 (1/4) (1/4) = (1/4, 1/4) ∧
    shootDiscVelocitySpec 0 1 0 (1/4) (1/4) ≠ (0, 0) := by
  refine ⟨rfl, by simp [shootDiscVelocityJS, jsMul, jsAdd, thisPower],
    by norm_num, ?_, ?_⟩
  · norm_num [shootDiscVelocitySpec, SHOT_POWER]
  · norm_num [shootDiscVelocitySpec, SHOT_POWER]

/-- C5 witness: the theorem applied at full power straight ahead with
both perturbations at their extreme. -/
theorem shootDisc_speed_bound_witness :
    shootDiscVelocityJS 0 1 (1/4) (1/4) = (none, none) ∧
    (shootDiscVelocitySpec 0 1 1 (1/4) (1/4)).1 ^ 2 +
        (shootDiscVelocitySpec 0 1 1 (1/4) (1/4)).2 ^ 2
      ≤ (SHOT_POWER * (1 + 1/30)) ^ 2 :=
  ⟨(shootDisc_speed_bound 0 1 1 (1/4) (1/4) (by norm_num) (by norm_num)
      (by norm_num) (by norm_num [abs_le]) (by norm_num [abs_le])).1,
   (shootDisc_speed_bound 0 1 1 (1/4) (1/4) (by norm_num) (by norm_num)
      (by norm_num) (by norm_num [abs_le]) (by norm_num [abs_le])).2.1⟩

/-- C6 (amended): a single `animate` tick in the `'shooting'` state
declares the active disc at rest — returning to `'aiming'` and clearing
the active disc — exactly when both the linear and the angular speed
are **at or below** the epsilon `0.1` (the source negates
`speed > 0.1`, so a speed of exactly `0.1` already counts as rest;
"strictly below" is the one boundary case where the claim fails).  No
debouncing over consecutive ticks exists: the single tick suffices.
Likewise `Disc.isMoving` of `js/disc.js` is `false` exactly when both
squared speeds are at or below `0.01`. -/
theorem rest_detector_single_tick (vlen wlen : ℚ) :
    (animateRestTick GState.shooting vlen wlen = (GState.aiming, true) ↔
      (vlen ≤ 1/10 ∧ wlen ≤ 1/10)) ∧
    (∀ d : Disc, d.isMoving = false ↔
      (d.velocity.lengthSquared ≤ 1/100 ∧
        d.angularVelocity.lengthSquared ≤ 1/100)) := by
  constructor
  · constructor
    · intro h
      by_cases hm : vlen > 1/10 ∨ wlen > 1/10
      · simp [animateRestTick, hm] at h
        exact ⟨by linarith [h.1], by linarith [h.2]⟩
      · push_neg at hm
        exact hm
    · intro h
      have hm : ¬(vlen > 1/10 ∨ wlen > 1/10) := by
        push_neg
        exact h
      simp [animateRestTick, hm]
      exact ⟨by linarith [h.1], by linarith [h.2]⟩
  · intro d
    simp [Disc.isMoving, not_lt]

/-- C6 counterexample: with linear speed exactly `0.1` (and zero
angular speed), one tick declares rest, although the speeds do not
both fall strictly below `0.1` as the claim's wording requires. -/
theorem rest_detector_boundary_rest :
    animateRestTick GState.shooting (1/10) 0 = (GState.aiming, true) ∧
    ¬ specRestBelow (1/10) 0 := by
  constructor
  · have hm : ¬((1/10:ℚ) > 1/10 ∨ (0:ℚ) > 1/10) := by norm_num
    simp [animateRestTick, hm]
  · simp [specRestBelow]

/-- C2 (amended): the two drafts disagree.  In the standalone draft's
`calculateScores`, once a total has reached `75`: on an exact tie no
game over is declared — the round counter advances into a sudden-death
round and both totals are kept — while on unequal totals the game ends
with the higher-scoring player declared winner.  In `js/game.js`'s
`checkGameOver`, however, reaching the threshold always declares game
over immediately: player 1 is the declared winner whenever player 1's
total is at least `75` — including when both totals are equal — and
player 2 only otherwise. -/
theorem score_ledger_win_check (s : MatchState) (s0 s1 : ℤ) (ap : Bool)
    (hs : 75 ≤ s.player1Score ∨ 75 ≤ s.player2Score) (hg : 75 ≤ s0) :
    (s.player1Score = s.player2Score →
        (winCheckUpdate s).2 = none ∧
        (winCheckUpdate s).1.gameState ≠ GState.gameOver ∧
        (winCheckUpdate s).1.player1Score = s.player1Score ∧
        (winCheckUpdate s).1.player2Score = s.player2Score ∧
        (winCheckUpdate s).1.currentRound = s.currentRound + 2) ∧
    (s.player1Score ≠ s.player2Score →
        (winCheckUpdate s).1.gameState = GState.gameOver ∧
        (winCheckUpdate s).2 =
          some (if s.player2Score < s.player1Score then 1 else 2)) ∧
    checkGameOver s0 s1 ap = (true, some 1) := by
  refine ⟨?_, ?_, ?_⟩
  · intro he
    unfold winCheckUpdate
    rw [if_pos hs, if_pos he]
    simp
  · intro hne
    unfold winCheckUpdate
    rw [if_pos hs, if_neg hne]
    simp
  · unfold checkGameOver
    rw [if_pos (Or.inl hg), if_pos hg]

/-- C2 counterexample: with both totals exactly `75` (equal, both at
the threshold), `js/game.js`'s `checkGameOver` declares game over with
player 1 the winner instead of continuing in a sudden-death round. -/
theorem checkGameOver_tie_declares_player1 :
    ((75:ℤ) = 75 ∧ (75:ℤ) ≤ 75) ∧
    checkGameOver 75 75 false = (true, some 1) := by decide

/-- C2 witness: the sudden-death clause at the tied state
`(75, 75)` after round 1's scores were added. -/
theorem score_ledger_win_check_witness :
    (winCheckUpdate ⟨75, 75, 1, GState.scoring, 1, 8⟩).2 = none ∧
    (winCheckUpdate ⟨75, 75, 1, GState.scoring, 1, 8⟩).1.gameState ≠
      GState.gameOver ∧
    (winCheckUpdate ⟨75, 75, 1, GState.scoring, 1, 8⟩).1.player1Score = 75 ∧
    (winCheckUpdate ⟨75, 75, 1, GState.scoring, 1, 8⟩).1.player2Score = 75 ∧
    (winCheckUpdate ⟨75, 75, 1, GState.scoring, 1, 8⟩).1.currentRound = 1 + 2 :=
  (score_ledger_win_check ⟨75, 75, 1, GState.scoring, 1, 8⟩ 80 60 false
    (Or.inl (by decide)) (by decide)).1 rfl

/-- The win/tie check never changes either running total. -/
lemma winCheckUpdate_scores (s : MatchState) :
    (winCheckUpdate s).1.player1Score = s.player1Score ∧
    (winCheckUpdate s).1.player2Score = s.player2Score := by
  unfold winCheckUpdate
  split_ifs <;> simp

/-- The points assigned this round to player `pl`'s newly scored discs
sum to that player's round score. -/
lemma assignedRoundSum_eq (pl : ℕ) (hpl : pl = 1 ∨ pl = 2)
    (discs : List PDisc) :
    assignedRoundSum pl discs = roundScoreFor pl discs := by
  induction discs with
  | nil => rfl
  | cons d t ih =>
    simp only [assignedRoundSum, roundScoreFor, markScored] at ih ⊢
    by_cases hd : (d.player == pl && !d.scored) = true
    · have hd' := hd
      simp only [Bool.and_eq_true] at hd'
      obtain ⟨hp, hs⟩ := hd'
      have hpe : d.player = pl := by simpa using hp
      have hp12 : ((d.player == 1 || d.player == 2) && !d.scored) = true := by
        rcases hpl with rfl | rfl <;> simp [hpe, hs]
      simp only [List.map_cons, List.zip_cons_cons, List.filter_cons, hd,
        hp12, if_true, List.sum_cons]
      rw [ih]
    · simp only [List.map_cons, List.zip_cons_cons, List.filter_cons, hd,
        Bool.false_eq_true, if_false]
      exact ih

/-- C3 (confirmed): a player's round score equals the sum of the point
values `calculateScores` assigns to that player's discs scored in the
round (read off the output disc list), the running total after the
round equals the total before plus that round score, and over any
sequence of rounds the running total is the initial total plus the sum
of all the round scores. -/
theorem calculateScores_round_totals (discs : List PDisc) (s : MatchState)
    (rounds : List (List PDisc)) :
    ((calculateScores discs s).2.1.player1Score
        = s.player1Score + assignedRoundSum 1 discs) ∧
    ((calculateScores discs s).2.1.player2Score
        = s.player2Score + assignedRoundSum 2 discs) ∧
    ((runRounds s rounds).player1Score
        = s.player1Score + (rounds.map (assignedRoundSum 1)).sum) ∧
    ((runRounds s rounds).player2Score
        = s.player2Score + (rounds.map (assignedRoundSum 2)).sum) := by
  have key : ∀ (ds : List PDisc) (st : MatchState),
      (calculateScores ds st).2.1.player1Score
          = st.player1Score + assignedRoundSum 1 ds ∧
      (calculateScores ds st).2.1.player2Score
          = st.player2Score + assignedRoundSum 2 ds := by
    intro ds st
    unfold calculateScores
    constructor
    · rw [(winCheckUpdate_scores _).1]
      simp [assignedRoundSum_eq 1 (Or.inl rfl)]
    · rw [(winCheckUpdate_scores _).2]
      simp [assignedRoundSum_eq 2 (Or.inr rfl)]
  refine ⟨(key discs s).1, (key discs s).2, ?_, ?_⟩
  · induction rounds generalizing s with
    | nil => simp [runRounds]
    | cons r rs ih =>
      simp only [runRounds, List.foldl_cons, List.map_cons, List.sum_cons]
      have := ih ((calculateScores r s).2.1)
      simp only [runRounds] at this
      rw [this, (key r s).1]
      ring
  · induction rounds generalizing s with
    | nil => simp [runRounds]
    | cons r rs ih =>
      simp only [runRounds, List.foldl_cons, List.map_cons, List.sum_cons]
      have := ih ((calculateScores r s).2.1)
      simp only [runRounds] at this
      rw [this, (key r s).2]
      ring

/-- After the scoring pass every disc carries `hasBeenScored = true`. -/
lemma calculateScoreGo_all_scored (b : Board) (ds : List Disc) :
    ∀ d ∈ (Player.calculateScoreGo b ds).1, d.hasBeenScored = true := by
  induction ds with
  | nil =>
    intro d hd
    simp [Player.calculateScoreGo] at hd
  | cons d t ih =>
    intro x hx
    by_cases hd : d.hasBeenScored = true
    · simp only [Player.calculateScoreGo, hd, if_true] at hx
      rcases List.mem_cons.mp hx with rfl | hx
      · exact hd
      · exact ih x hx
    · simp only [Player.calculateScoreGo, hd, if_false] at hx
      rcases List.mem_cons.mp hx with rfl | hx
      · rfl
      · exact ih x hx

/-- The scoring pass over a list of already-scored discs changes
nothing and contributes zero. -/
lemma calculateScoreGo_scored_noop (b : Board) (ds : List Disc)
    (h : ∀ d ∈ ds, d.hasBeenScored = true) :
    Player.calculateScoreGo b ds = (ds, 0) := by
  induction ds with
  | nil => rfl
  | cons d t ih =>
    have hd := h d (List.mem_cons_self d t)
    have ht := ih (fun x hx => h x (List.mem_cons_of_mem d hx))
    simp only [Player.calculateScoreGo, hd, if_true, ht]

/-- C7 (confirmed): a disc is scored at most once per round.  Running
`Player.calculateScore` a second time on its own output returns the
same player and a zero round score, and on any player all of whose
discs are already marked scored the pass is a complete no-op: no
point value is assigned and nothing is added to the score. -/
theorem calculateScore_idempotent (p : Player) (b : Board) :
    Player.calculateScore (Player.calculateScore p b).1 b
        = ((Player.calculateScore p b).1, 0) ∧
    (∀ q : Player, (∀ d ∈ q.discs, d.hasBeenScored = true) →
        Player.calculateScore q b = (q, 0)) := by
  have hnoop : ∀ q : Player, (∀ d ∈ q.discs, d.hasBeenScored = true) →
      Player.calculateScore q b = (q, 0) := by
    intro q hq
    unfold Player.calculateScore
    rw [calculateScoreGo_scored_noop b q.discs hq]
    simp
  refine ⟨?_, hnoop⟩
  apply hnoop
  intro d hd
  have hds : (Player.calculateScore p b).1.discs
      = (Player.calculateScoreGo b p.discs).1 := rfl
  rw [hds] at hd
  exact calculateScoreGo_all_scored b p.discs d hd

/-- C7 witness: the no-op clause on a one-disc player whose disc is
already scored. -/
theorem calculateScore_idempotent_witness :
    Player.calculateScore
        ⟨3, 4, 4, [{ newDisc with hasBeenScored := true }]⟩ defaultBoard
      = (⟨3, 4, 4, [{ newDisc with hasBeenScored := true }]⟩, 0) :=
  (calculateScore_idempotent Player.create defaultBoard).2
    ⟨3, 4, 4, [{ newDisc with hasBeenScored := true }]⟩
    (by
      intro d hd
      rw [List.mem_singleton] at hd
      subst hd
      rfl)

/-- C8 (confirmed): `Player.throwDisc` on a player whose shot count has
reached the per-round disc count reports failure and leaves the whole
player state — score, shot count, and every disc with its position,
velocities and flags — unchanged. -/
theorem throwDisc_no_discs_noop (p : Player)
    (h : p.maxDiscs ≤ p.discsThrown) :
    (Player.throwDisc p).1 = false ∧
    (Player.throwDisc p).2.score = p.score ∧
    (Player.throwDisc p).2.discsThrown = p.discsThrown ∧
    (Player.throwDisc p).2.discs = p.discs ∧
    (Player.throwDisc p).2 = p := by
  unfold Player.throwDisc
  rw [if_pos h]
  exact ⟨rfl, rfl, rfl, rfl, rfl⟩

/-- C8 witness: a player with all four discs thrown. -/
theorem throwDisc_no_discs_noop_witness :
    (Player.throwDisc ⟨0, 4, 4, []⟩).1 = false ∧
    (Player.throwDisc ⟨0, 4, 4, []⟩).2.score = 0 ∧
    (Player.throwDisc ⟨0, 4, 4, []⟩).2.discsThrown = 4 ∧
    (Player.throwDisc ⟨0, 4, 4, []⟩).2.discs = [] ∧
    (Player.throwDisc ⟨0, 4, 4, []⟩).2 = ⟨0, 4, 4, []⟩ :=
  throwDisc_no_discs_noop ⟨0, 4, 4, []⟩ (by decide)

/-- Each player operation preserves `discsThrown ≤ maxDiscs`. -/
lemma applyOp_discsThrown_le (p : Player) (op : PlayerOp)
    (hp : p.discsThrown ≤ p.maxDiscs) :
    (PlayerOp.apply p op).discsThrown ≤ (PlayerOp.apply p op).maxDiscs := by
  cases op with
  | throw =>
    simp only [PlayerOp.apply]
    unfold Player.throwDisc
    by_cases h : p.maxDiscs ≤ p.discsThrown
    · rw [if_pos h]
      exact hp
    · rw [if_neg h]
      push_neg at h
      cases hnd : p.discs[p.discsThrown]? with
      | none => simp [hnd, hp]
      | some d =>
          simp only [hnd]
          omega
  | reset =>
    simp [PlayerOp.apply, Player.reset]
  | calcScore b =>
    simp only [PlayerOp.apply, Player.calculateScore]
    exact hp

/-- The invariant holds along any operation sequence. -/
lemma applyOps_discsThrown_le (p : Player)
    (hp : p.discsThrown ≤ p.maxDiscs) (ops : List PlayerOp) :
    (applyOps p ops).discsThrown ≤ (applyOps p ops).maxDiscs := by
  induction ops generalizing p with
  | nil => exact hp
  | cons op t ih => exact ih _ (applyOp_discsThrown_le p op hp)

/-- C9 (confirmed): every `Player` operation preserves
`discsThrown ≤ maxDiscs` (the lower bound `0 ≤ discsThrown` is
inherent: the count is a natural number), and along every operation
sequence from a freshly constructed player the count of discs shot
never exceeds the per-round disc count `4`. -/
theorem discsThrown_invariant (p : Player) (op : PlayerOp)
    (hp : p.discsThrown ≤ p.maxDiscs) (ops : List PlayerOp) :
    ((PlayerOp.apply p op).discsThrown ≤ (PlayerOp.apply p op).maxDiscs) ∧
    ((applyOps Player.create ops).discsThrown ≤
        (applyOps Player.create ops).maxDiscs) ∧
    (applyOps Player.create ops).maxDiscs = 4 := by
  refine ⟨applyOp_discsThrown_le p op hp, ?_, ?_⟩
  · exact applyOps_discsThrown_le Player.create (by decide) ops
  · have hfix : ∀ (q : Player) (o : PlayerOp),
        (PlayerOp.apply q o).maxDiscs = q.maxDiscs := by
      intro q o
      cases o with
      | throw =>
        simp only [PlayerOp.apply]
        unfold Player.throwDisc
        split_ifs
        · rfl
        · cases hnd : q.discs[q.discsThrown]? <;> simp [hnd]
      | reset => rfl
      | calcScore b => rfl
    have : ∀ (os : List PlayerOp) (q : Player),
        (applyOps q os).maxDiscs = q.maxDiscs := by
      intro os
      induction os with
      | nil => intro q; rfl
      | cons o t ih =>
          intro q
          simp only [applyOps, List.foldl_cons]
          rw [show List.foldl PlayerOp.apply (PlayerOp.apply q o) t
              = applyOps (PlayerOp.apply q o) t from rfl, ih, hfix]
    rw [this ops Player.create]
    rfl

/-- C9 witness: one throw from the fresh player, empty tail sequence. -/
theorem discsThrown_invariant_witness :
    ((PlayerOp.apply Player.create PlayerOp.throw).discsThrown ≤
        (PlayerOp.apply Player.create PlayerOp.throw).maxDiscs) ∧
    ((applyOps Player.create []).discsThrown ≤
        (applyOps Player.create []).maxDiscs) ∧
    (applyOps Player.create []).maxDiscs = 4 :=
  discsThrown_invariant Player.create PlayerOp.throw (by decide) []

/-- C10 (confirmed): after `Player.reset()` the running score is `0`,
the shot count is `0`, and every disc is reset — flags cleared, both
velocities zero, body at `(0, thickness/2, 0)`, the centre of the
board (the `setPosition(0, 0, 0)` call, not the per-disc starting
area used when throwing). -/
theorem player_reset_spec (p : Player) (d : Disc) (hd : d ∈ p.discs) :
    (Player.reset p).score = 0 ∧
    (Player.reset p).discsThrown = 0 ∧
    (Player.reset p).discs = p.discs.map Disc.reset ∧
    Disc.reset d ∈ (Player.reset p).discs ∧
    (Disc.reset d).hasBeenScored = false ∧
    (Disc.reset d).isActive = false ∧
    (Disc.reset d).velocity = Vec3.zero ∧
    (Disc.reset d).angularVelocity = Vec3.zero ∧
    (Disc.reset d).position = ⟨0, d.thickness / 2, 0⟩ := by
  refine ⟨rfl, rfl, rfl, ?_, rfl, rfl, rfl, rfl, ?_⟩
  · exact List.mem_map_of_mem Disc.reset hd
  · simp [Disc.reset, Disc.setPosition]

/-- C10 witness: the fresh player and one of its constructor discs. -/
theorem player_reset_spec_witness :
    (Player.reset Player.create).score = 0 ∧
    (Player.reset Player.create).discsThrown = 0 ∧
    (Player.reset Player.create).discs = Player.create.discs.map Disc.reset ∧
    Disc.reset newDisc ∈ (Player.reset Player.create).discs ∧
    (Disc.reset newDisc).hasBeenScored = false ∧
    (Disc.reset newDisc).isActive = false ∧
    (Disc.reset newDisc).velocity = Vec3.zero ∧
    (Disc.reset newDisc).angularVelocity = Vec3.zero ∧
    (Disc.reset newDisc).position = ⟨0, newDisc.thickness / 2, 0⟩ :=
  player_reset_spec Player.create newDisc
    (by simp [Player.create, List.mem_replicate])

/-- A throw by player 0 followed by `endTurn`, in explicit form. -/
lemma endTurn_throwCur_false (t : SchedState) (hcur : t.cur = false) :
    endTurn t.throwCur =
      if schedMaxDiscs - t.thrown1 = 0 then
        { t with thrown0 := t.thrown0 + 1, cur := true, roundOver := true }
      else { t with thrown0 := t.thrown0 + 1, cur := true } := by
  simp only [SchedState.throwCur, hcur, Bool.false_eq_true, if_false, endTurn,
    SchedState.remainingOf, SchedState.thrownOf, Bool.not_false, if_true]

/-- A throw by player 1 followed by `endTurn`, in explicit form. -/
lemma endTurn_throwCur_true (t : SchedState) (hcur : t.cur = true) :
    endTurn t.throwCur =
      if schedMaxDiscs - t.thrown0 = 0 then
        { t with thrown1 := t.thrown1 + 1, cur := false, roundOver := true }
      else { t with thrown1 := t.thrown1 + 1, cur := false } := by
  simp only [SchedState.throwCur, hcur, if_true, endTurn,
    SchedState.remainingOf, SchedState.thrownOf, Bool.not_true,
    Bool.false_eq_true, if_false]

/-- The structural invariant of the scheduler: both thrown counts stay
within the per-round disc count, with player 0 to act the counts are
equal, with player 1 to act player 0 is exactly one ahead, and the
round has been ended exactly when both players have thrown all their
discs. -/
lemma sched_reachable_inv (s : SchedState) (h : SchedReachable s) :
    s.thrown0 ≤ schedMaxDiscs ∧ s.thrown1 ≤ schedMaxDiscs ∧
    (s.cur = false → s.thrown0 = s.thrown1) ∧
    (s.cur = true → s.thrown0 = s.thrown1 + 1) ∧
    (s.roundOver = true ↔
      (s.thrown0 = schedMaxDiscs ∧ s.thrown1 = schedMaxDiscs)) := by
  induction h with
  | init => simp [schedInit, schedMaxDiscs]
  | @step t u hr hs ih =>
    obtain ⟨h0, h1, hc0, hc1, hiff⟩ := ih
    simp only [schedMaxDiscs] at h0 h1 hiff
    cases hs with
    | throw hro hcan =>
      cases hcur : t.cur with
      | false =>
        have he : t.thrown0 = t.thrown1 := hc0 hcur
        have hcan' : t.thrown0 < 4 := by
          simpa [SchedState.thrownOf, hcur, schedMaxDiscs] using hcan
        rw [endTurn_throwCur_false t hcur]
        have hrem : ¬(schedMaxDiscs - t.thrown1 = 0) := by
          simp only [schedMaxDiscs]
          omega
        rw [if_neg hrem]
        refine ⟨?_, ?_, ?_, ?_, ?_⟩
        all_goals simp [hro, schedMaxDiscs]
        all_goals omega
      | true =>
        have he : t.thrown0 = t.thrown1 + 1 := hc1 hcur
        have hcan' : t.thrown1 < 4 := by
          simpa [SchedState.thrownOf, hcur, schedMaxDiscs] using hcan
        rw [endTurn_throwCur_true t hcur]
        by_cases hrem : schedMaxDiscs - t.thrown0 = 0
        · rw [if_pos hrem]
          have hrem' : t.thrown0 = 4 := by
            simp only [schedMaxDiscs] at hrem
            omega
          refine ⟨?_, ?_, ?_, ?_, ?_⟩
          all_goals simp [hro, schedMaxDiscs]
          all_goals omega
        · rw [if_neg hrem]
          have hrem' : ¬(t.thrown0 = 4) := by
            simp only [schedMaxDiscs] at hrem
            omega
          refine ⟨?_, ?_, ?_, ?_, ?_⟩
          all_goals simp [hro, schedMaxDiscs]
          all_goals omega
    | pass hro hcant =>
      cases hcur : t.cur with
      | false =>
        have he : t.thrown0 = t.thrown1 := hc0 hcur
        have hcant' : t.thrown0 = 4 := by
          simpa [SchedState.thrownOf, hcur, schedMaxDiscs] using hcant
        have hrt : t.roundOver = true := hiff.mpr ⟨hcant', by omega⟩
        rw [hro] at hrt
        simp at hrt
      | true =>
        have he : t.thrown0 = t.thrown1 + 1 := hc1 hcur
        have hcant' : t.thrown1 = 4 := by
          simpa [SchedState.thrownOf, hcur, schedMaxDiscs] using hcant
        exfalso
        omega

/-- C4 (confirmed): in every state the scheduler can reach within a
round, the player holding the turn has at least one remaining disc
while the round is open (so the turn is never passed to a player with
zero remaining discs while the other still has discs), and the round
has been ended exactly when both players have zero remaining discs. -/
theorem scheduler_turn_round_invariant (s : SchedState)
    (h : SchedReachable s) :
    (s.roundOver = false → s.remainingOf s.cur ≠ 0) ∧
    (s.roundOver = true ↔
      (s.remainingOf false = 0 ∧ s.remainingOf true = 0)) := by
  obtain ⟨h0, h1, hc0, hc1, hiff⟩ := sched_reachable_inv s h
  constructor
  · intro hro
    have hnot : ¬(s.thrown0 = schedMaxDiscs ∧ s.thrown1 = schedMaxDiscs) := by
      intro hh
      have := hiff.mpr hh
      rw [hro] at this
      exact absurd this (by simp)
    cases hcur : s.cur with
    | false =>
      have he := hc0 hcur
      simp only [SchedState.remainingOf, SchedState.thrownOf, hcur,
        Bool.false_eq_true, if_false]
      omega
    | true =>
      have he := hc1 hcur
      simp only [SchedState.remainingOf, SchedState.thrownOf, hcur, if_true]
      omega
  · rw [hiff]
    simp only [SchedState.remainingOf, SchedState.thrownOf,
      Bool.false_eq_true, if_false, if_true]
    omega

/-- C4 witness: the invariant at the round's initial state. -/
theorem scheduler_turn_round_invariant_witness :
    (schedInit.roundOver = false → schedInit.remainingOf schedInit.cur ≠ 0) ∧
    (schedInit.roundOver = true ↔
      (schedInit.remainingOf false = 0 ∧ schedInit.remainingOf true = 0)) :=
  scheduler_turn_round_invariant schedInit SchedReachable.init

end Shuffleboard
